import Mathlib

/-!
Verification of the `opencmiss.maths.vectorops` module (a small pure-Python
vector / matrix / rotation-conversion library) against its natural-language
specification.

The module operates on Python lists of floats.  We embed vectors as `List ℝ`
and matrices as `List (List ℝ)`.  Python's runtime errors are made explicit:

* indexing `v[i]` out of range raises `IndexError`;
* float division by zero raises `ZeroDivisionError` (CPython does *not*
  return IEEE infinities for `x / 0.0`);
* tuple unpacking of a wrong-length list, and the one explicit `raise` in
  `vector_matrix_mult`, raise `ValueError`.

Fallible operations therefore return `Except PyErr`.  Arithmetic on floats is
modelled by real arithmetic.  `math.atan2 y x` is modelled as the argument of
the complex number `x + y i` (range `(-π, π]`, `atan2 0 0 = 0`, matching the
C library convention CPython inherits).
-/

namespace VectorOps

noncomputable section

abbrev Vec := List ℝ

abbrev Mat := List (List ℝ)

/-- The Python runtime errors the module can raise. -/
inductive PyErr where
  | valueError (msg : String)
  | indexError
  | zeroDivisionError
  | typeError
deriving DecidableEq

/-- Python list indexing `v[i]` (nonnegative index): `IndexError` when out of
range. -/
def vget (v : Vec) (i : Nat) : Except PyErr ℝ :=
  match v[i]? with
  | some x => .ok x
  | none => .error .indexError

/-- Python list-of-lists row access `m[i]`. -/
def mget (m : Mat) (i : Nat) : Except PyErr Vec :=
  match m[i]? with
  | some r => .ok r
  | none => .error .indexError

/-- Python `m[i][j]`. -/
def vget2 (m : Mat) (i j : Nat) : Except PyErr ℝ := do
  let row ← mget m i
  vget row j

/-- Python float division: `ZeroDivisionError` on a zero divisor, otherwise
real division. -/
def pydiv (x y : ℝ) : Except PyErr ℝ :=
  if y = 0 then .error .zeroDivisionError else .ok (x / y)

/-- Sequential effectful map, the shape of a Python list comprehension
`[body(i) for i in l]` (left to right, stopping at the first error). -/
def mapME {α β : Type} (f : α → Except PyErr β) : List α → Except PyErr (List β)
  | [] => .ok []
  | a :: l => do
    let b ← f a
    let bs ← mapME f l
    .ok (b :: bs)

/-- `math.atan2 y x`, the angle of the point `(x, y)`, in `(-π, π]` with
`atan2 0 0 = 0`. -/
def atan2 (y x : ℝ) : ℝ := Complex.arg ⟨x, y⟩

@[simp] theorem ok_bind {α β : Type} (a : α) (f : α → Except PyErr β) :
    (Except.ok a >>= f) = f a := rfl

@[simp] theorem error_bind {α β : Type} (e : PyErr) (f : α → Except PyErr β) :
    ((Except.error e : Except PyErr α) >>= f) = .error e := rfl

@[simp] theorem pure_eq_ok {α : Type} (a : α) :
    (pure a : Except PyErr α) = .ok a := rfl

@[simp] theorem mapME_nil {α β : Type} (f : α → Except PyErr β) :
    mapME f [] = .ok [] := rfl

theorem mapME_cons {α β : Type} (f : α → Except PyErr β) (a : α) (l : List α) :
    mapME f (a :: l) = (do
      let b ← f a
      let bs ← mapME f l
      .ok (b :: bs)) := rfl

/-! ## The module's functions, translated line by line from `vectorops.py`. -/

/-- `magnitude(v)`: every index taken by the generator is in range, so the
sum cannot fail. -/
def magnitude (v : Vec) : ℝ :=
  Real.sqrt (((List.range v.length).map fun i => v.getD i 0 * v.getD i 0).sum)

/-- `add(u, v) = [u[i] + v[i] for i in range(len(u))]`. -/
def add (u v : Vec) : Except PyErr Vec :=
  mapME (fun i => do
    let x ← vget u i
    let y ← vget v i
    pure (x + y)) (List.range u.length)

/-- `sub(u, v) = [u[i] - v[i] for i in range(len(u))]`. -/
def sub (u v : Vec) : Except PyErr Vec :=
  mapME (fun i => do
    let x ← vget u i
    let y ← vget v i
    pure (x - y)) (List.range u.length)

/-- `dot(u, v) = sum(u[i] * v[i] for i in range(len(u)))`. -/
def dot (u v : Vec) : Except PyErr ℝ := do
  let terms ← mapME (fun i => do
    let x ← vget u i
    let y ← vget v i
    pure (x * y)) (List.range u.length)
  pure terms.sum

/-- `eldiv(u, v) = [u[i] / v[i] for i in range(len(u))]`. -/
def eldiv (u v : Vec) : Except PyErr Vec :=
  mapME (fun i => do
    let x ← vget u i
    let y ← vget v i
    pydiv x y) (List.range u.length)

/-- `elmult(u, v) = [u[i] * v[i] for i in range(len(u))]`. -/
def elmult (u v : Vec) : Except PyErr Vec :=
  mapME (fun i => do
    let x ← vget u i
    let y ← vget v i
    pure (x * y)) (List.range u.length)

/-- `normalize(v)`: computes `vmag = magnitude(v)` then divides each
component by it. -/
def normalize (v : Vec) : Except PyErr Vec :=
  let vmag := magnitude v
  mapME (fun i => do
    let x ← vget v i
    pydiv x vmag) (List.range v.length)

/-- `cross(u, v)`, indexing positions 0–2 directly. -/
def cross (u v : Vec) : Except PyErr Vec := do
  let u0 ← vget u 0
  let u1 ← vget u 1
  let u2 ← vget u 2
  let v0 ← vget v 0
  let v1 ← vget v 1
  let v2 ← vget v 2
  pure [u1 * v2 - u2 * v1, u2 * v0 - u0 * v2, u0 * v1 - u1 * v0]

/-- `mult(u, c)`: every index is in range, never fails. -/
def mult (u : Vec) (c : ℝ) : Vec :=
  (List.range u.length).map fun i => u.getD i 0 * c

/-- `div(u, c) = [u[i] / c for i in range(len(u))]`. -/
def div (u : Vec) (c : ℝ) : Except PyErr Vec :=
  mapME (fun i => do
    let x ← vget u i
    pydiv x c) (List.range u.length)

/-- `quaternion_to_rotation_matrix(quaternion)`: normalizes by the magnitude
(a `ZeroDivisionError` for the zero quaternion), unpacks into four components
(a `ValueError` for any other length), then builds the standard matrix. -/
def quaternion_to_rotation_matrix (quaternion : Vec) : Except PyErr Mat := do
  let mag_q := magnitude quaternion
  let norm_q ← div quaternion mag_q
  match norm_q with
  | [qw, qx, qy, qz] =>
    pure [[qw * qw + qx * qx - qy * qy - qz * qz, 2 * qx * qy - 2 * qw * qz, 2 * qx * qz + 2 * qw * qy],
          [2 * qx * qy + 2 * qw * qz, qw * qw - qx * qx + qy * qy - qz * qz, 2 * qy * qz - 2 * qw * qx],
          [2 * qx * qz - 2 * qw * qy, 2 * qy * qz + 2 * qw * qx, qw * qw - qx * qx - qy * qy + qz * qz]]
  | _ => .error (.valueError "unpack")

/-- `matrix_constant_mult(m, c) = [mult(row_m, c) for row_m in m]`. -/
def matrix_constant_mult (m : Mat) (c : ℝ) : Mat :=
  m.map fun row_m => mult row_m c

/-- `matrix_vector_mult(m, v) = [dot(row_m, v) for row_m in m]`. -/
def matrix_vector_mult (m : Mat) (v : Vec) : Except PyErr Vec :=
  mapME (fun row_m => dot row_m v) m

/-- `vector_matrix_mult(v, m)`: the one explicit `raise` in the module, then
`columns = len(m[0])` and the double loop building the result. -/
def vector_matrix_mult (v : Vec) (m : Mat) : Except PyErr Vec :=
  let rows := m.length
  if v.length ≠ rows then .error (.valueError "vector_matrix_mult mismatched rows")
  else do
    let row0 ← mget m 0
    let columns := row0.length
    mapME (fun c => do
      let terms ← mapME (fun r => do
        let vr ← vget v r
        let rowr ← mget m r
        let mrc ← vget rowr c
        pure (vr * mrc)) (List.range rows)
      pure terms.sum) (List.range columns)

/-- `matrix_mult(a, b) = [vector_matrix_mult(row_a, b) for row_a in a]`. -/
def matrix_mult (a b : Mat) : Except PyErr Mat :=
  mapME (fun row_a => vector_matrix_mult row_a b) a

/-- `transpose(a) = list(map(list, zip(*a)))`: `zip` of the rows produces
`min` row-length tuples, each collecting one column; `zip()` of no rows
yields the empty list. -/
def transpose (a : Mat) : Mat :=
  match a with
  | [] => []
  | r :: rs =>
    let n := rs.foldl (fun acc row => min acc row.length) r.length
    (List.range n).map fun j => (r :: rs).map fun row => row.getD j 0

/-- `euler_to_rotation_matrix(euler_angles)`: closed-form `Rz·Ry·Rx`. -/
def euler_to_rotation_matrix (euler_angles : Vec) : Except PyErr Mat := do
  let a0 ← vget euler_angles 0
  let a1 ← vget euler_angles 1
  let a2 ← vget euler_angles 2
  let cos_azimuth := Real.cos a0
  let sin_azimuth := Real.sin a0
  let cos_elevation := Real.cos a1
  let sin_elevation := Real.sin a1
  let cos_roll := Real.cos a2
  let sin_roll := Real.sin a2
  pure [[cos_azimuth * cos_elevation,
         cos_azimuth * sin_elevation * sin_roll - sin_azimuth * cos_roll,
         cos_azimuth * sin_elevation * cos_roll + sin_azimuth * sin_roll],
        [sin_azimuth * cos_elevation,
         sin_azimuth * sin_elevation * sin_roll + cos_azimuth * cos_roll,
         sin_azimuth * sin_elevation * cos_roll - cos_azimuth * sin_roll],
        [-sin_elevation, cos_elevation * sin_roll, cos_elevation * cos_roll]]

/-- The fixed tolerance `1.0E-12` of `rotation_matrix_to_euler`. -/
def MATRIX_TO_EULER_TOLERANCE : ℝ := 1 / 10 ^ 12

/-- `rotation_matrix_to_euler(matrix)`: three-way branch on
`|matrix[0][0]|` and then `|matrix[0][1]|` against the tolerance, each matrix
element read as the Python code reaches it.  The divisions
`matrix[0][0] / cos(e0)` and `matrix[1][0] / sin(e0)` go through `pydiv`. -/
def rotation_matrix_to_euler (matrix : Mat) : Except PyErr Vec := do
  let m00 ← vget2 matrix 0 0
  if |m00| > MATRIX_TO_EULER_TOLERANCE then
    let m10 ← vget2 matrix 1 0
    let e0 := atan2 m10 m00
    let m21 ← vget2 matrix 2 1
    let m22 ← vget2 matrix 2 2
    let e2 := atan2 m21 m22
    let m20 ← vget2 matrix 2 0
    let q ← pydiv m00 (Real.cos e0)
    pure [e0, atan2 (-m20) q, e2]
  else
    let m01 ← vget2 matrix 0 1
    if |m01| > MATRIX_TO_EULER_TOLERANCE then
      let m10 ← vget2 matrix 1 0
      let e0 := atan2 m10 m00
      let m21 ← vget2 matrix 2 1
      let m22 ← vget2 matrix 2 2
      let e2 := atan2 m21 m22
      let m20 ← vget2 matrix 2 0
      let q ← pydiv m10 (Real.sin e0)
      pure [e0, atan2 (-m20) q, e2]
    else
      let m20 ← vget2 matrix 2 0
      let e1 := atan2 (-m20) 0
      let m12 ← vget2 matrix 1 2
      let m02 ← vget2 matrix 0 2
      pure [0, e1, atan2 (-m12) (-m02 * m20)]

/-- `axis_angle_to_quaternion(axis, angle)`: half-angle formula, no
normalization of the axis. -/
def axis_angle_to_quaternion (axis : Vec) (angle : ℝ) : Except PyErr Vec := do
  let sin_half_angle := Real.sin (angle / 2)
  let a0 ← vget axis 0
  let a1 ← vget axis 1
  let a2 ← vget axis 2
  pure [Real.cos (angle / 2), a0 * sin_half_angle, a1 * sin_half_angle, a2 * sin_half_angle]

/-- `axis_angle_to_rotation_matrix(axis, angle)`: literally the composition
of the two functions above. -/
def axis_angle_to_rotation_matrix (axis : Vec) (angle : ℝ) : Except PyErr Mat := do
  let q ← axis_angle_to_quaternion axis angle
  quaternion_to_rotation_matrix q

/-- The dynamically typed second argument of `reshape`: a `(rows, cols)`
tuple or a single integer. -/
inductive Shape where
  | pair (rows cols : Nat)
  | single (n : Int)

/-- `reshape(a, new_shape)`.  The tuple branch indexes the flat input at the
running counter `index = x * cols + y`; the integer branch flattens the
nested input and truncates when `0 <= new_shape < len(flat_list)`.
The input is a flat sequence or a nested matrix; the combinations the claims
never exercise (integer shape on a flat list is a Python `TypeError`; a
tuple shape on a nested list would build a triply nested list, outside the
`Vec ⊕ Mat` value domain) are modelled as a type error. -/
def reshape (a : Vec ⊕ Mat) (new_shape : Shape) : Except PyErr (Vec ⊕ Mat) :=
  match new_shape, a with
  | .pair rows cols, .inl flat => do
    let b ← mapME (fun x =>
      mapME (fun y => vget flat (x * cols + y)) (List.range cols)) (List.range rows)
    pure (.inr b)
  | .single n, .inr mat =>
    let flat_list := mat.flatten
    if 0 ≤ n ∧ n < (flat_list.length : Int) then .ok (.inl (flat_list.take n.toNat))
    else .ok (.inl flat_list)
  | _, _ => .error .typeError

/-! ## Infrastructure lemmas -/

theorem vget_ok (v : Vec) (i : Nat) (h : i < v.length) : vget v i = .ok (v.getD i 0) := by
  unfold vget
  rw [List.getElem?_eq_getElem h, List.getD_eq_getElem v 0 h]

theorem vget_oob (v : Vec) (i : Nat) (h : v.length ≤ i) : vget v i = .error .indexError := by
  unfold vget
  rw [List.getElem?_eq_none h]

theorem vget_cases (v : Vec) (i : Nat) :
    vget v i = .error .indexError ∨ ∃ y, vget v i = .ok y := by
  unfold vget
  cases v[i]? with
  | none => exact Or.inl rfl
  | some x => exact Or.inr ⟨x, rfl⟩

theorem mget_cases (m : Mat) (i : Nat) :
    mget m i = .error .indexError ∨ ∃ y, mget m i = .ok y := by
  unfold mget
  cases m[i]? with
  | none => exact Or.inl rfl
  | some x => exact Or.inr ⟨x, rfl⟩

theorem pydiv_cases (x y : ℝ) :
    pydiv x y = .error .zeroDivisionError ∨ ∃ z, pydiv x y = .ok z := by
  unfold pydiv
  by_cases h : y = 0
  · rw [if_pos h]; exact Or.inl rfl
  · rw [if_neg h]; exact Or.inr ⟨x / y, rfl⟩

theorem pydiv_ok (x y : ℝ) (h : y ≠ 0) : pydiv x y = .ok (x / y) := by
  unfold pydiv
  rw [if_neg h]

theorem mapME_ok {α β : Type} (f : α → Except PyErr β) (g : α → β) (l : List α)
    (h : ∀ x ∈ l, f x = .ok (g x)) : mapME f l = .ok (l.map g) := by
  induction l with
  | nil => rfl
  | cons a l ih =>
    rw [mapME_cons, h a (List.mem_cons_self a l),
      ih (fun x hx => h x (List.mem_cons_of_mem a hx))]
    rfl

theorem mapME_error_mem {α β : Type} (f : α → Except PyErr β) (l : List α) (e : PyErr)
    (h : mapME f l = .error e) : ∃ x ∈ l, f x = .error e := by
  induction l with
  | nil => simp [mapME] at h
  | cons a l ih =>
    rw [mapME_cons] at h
    cases hfa : f a with
    | error e2 =>
      rw [hfa, error_bind] at h
      refine ⟨a, List.mem_cons_self a l, ?_⟩
      rw [hfa]
      exact congrArg Except.error (Except.error.inj h)
    | ok b =>
      rw [hfa, ok_bind] at h
      cases hml : mapME f l with
      | error e2 =>
        rw [hml, error_bind] at h
        obtain ⟨x, hx, hfx⟩ := ih (hml.trans (congrArg Except.error (Except.error.inj h)))
        exact ⟨x, List.mem_cons_of_mem a hx, hfx⟩
      | ok bs => rw [hml, ok_bind] at h; exact absurd h (by simp)

theorem mapME_error_of {α β : Type} (f : α → Except PyErr β) (e : PyErr) (l : List α)
    (hall : ∀ x ∈ l, f x = .error e ∨ ∃ y, f x = .ok y)
    (hex : ∃ x ∈ l, f x = .error e) : mapME f l = .error e := by
  induction l with
  | nil => obtain ⟨x, hx, _⟩ := hex; exact absurd hx (List.not_mem_nil x)
  | cons a l ih =>
    rw [mapME_cons]
    rcases hall a (List.mem_cons_self a l) with ha | ⟨y, hy⟩
    · rw [ha, error_bind]
    · rw [hy, ok_bind]
      have hextl : ∃ x ∈ l, f x = .error e := by
        obtain ⟨x, hx, hfx⟩ := hex
        rcases List.mem_cons.mp hx with rfl | hx2
        · rw [hy] at hfx; exact absurd hfx (by simp)
        · exact ⟨x, hx2, hfx⟩
      rw [ih (fun x hx => hall x (List.mem_cons_of_mem a hx)) hextl, error_bind]

/-- Every error of the elementwise bodies is an index or division error,
never a `ValueError`. -/
theorem mapME_no_valueError {α β : Type} (f : α → Except PyErr β) (l : List α)
    (hall : ∀ x ∈ l, ∀ s, f x ≠ .error (.valueError s)) (s : String) :
    mapME f l ≠ .error (.valueError s) := by
  intro h
  obtain ⟨x, hx, hfx⟩ := mapME_error_mem f l _ h
  exact hall x hx s hfx

theorem range_map_getD {α : Type} (d : α) (l : List α) :
    (List.range l.length).map (fun i => l.getD i d) = l := by
  induction l with
  | nil => rfl
  | cons a l ih =>
    have hcomp : ((fun i => (a :: l).getD i d) ∘ Nat.succ) = fun i => l.getD i d := by
      funext i
      simp [Function.comp, List.getD_cons_succ]
    rw [List.length_cons, List.range_succ_eq_map, List.map_cons, List.map_map, hcomp, ih,
      List.getD_cons_zero]

theorem range_map_zipWith (op : ℝ → ℝ → ℝ) (u v : Vec) (h : u.length ≤ v.length) :
    (List.range u.length).map (fun i => op (u.getD i 0) (v.getD i 0)) =
      List.zipWith op u v := by
  induction u generalizing v with
  | nil => simp
  | cons a u ih =>
    cases v with
    | nil => exact absurd h (by simp)
    | cons b v =>
      have hcomp : ((fun i => op ((a :: u).getD i 0) ((b :: v).getD i 0)) ∘ Nat.succ) =
          fun i => op (u.getD i 0) (v.getD i 0) := by
        funext i
        simp [Function.comp, List.getD_cons_succ]
      rw [List.length_cons, List.range_succ_eq_map, List.map_cons, List.map_map,
        List.zipWith_cons_cons, hcomp, ih v (by simpa using h), List.getD_cons_zero,
        List.getD_cons_zero]

theorem mapME_congr {α β : Type} (f g : α → Except PyErr β) (l : List α)
    (h : ∀ x ∈ l, f x = g x) : mapME f l = mapME g l := by
  induction l with
  | nil => rfl
  | cons a l ih =>
    rw [mapME_cons, mapME_cons, h a (List.mem_cons_self a l),
      ih (fun x hx => h x (List.mem_cons_of_mem a hx))]

theorem mget_ok (m : Mat) (i : Nat) (h : i < m.length) : mget m i = .ok (m.getD i []) := by
  unfold mget
  rw [List.getElem?_eq_getElem h, List.getD_eq_getElem m [] h]

theorem pydiv_zero (x : ℝ) : pydiv x 0 = .error .zeroDivisionError := by
  unfold pydiv
  rw [if_pos rfl]

theorem vget_append (v w : Vec) (i : Nat) (h : i < v.length) : vget (v ++ w) i = vget v i := by
  unfold vget
  rw [List.getElem?_append, if_pos h]

/-- The result is not an explicitly raised `ValueError` (for any message). -/
def NoValueError {α : Type} (r : Except PyErr α) : Prop :=
  ∀ s, r ≠ .error (.valueError s)

theorem noVal_vget (v : Vec) (i : Nat) : NoValueError (vget v i) := by
  unfold NoValueError vget
  cases v[i]? <;> simp

theorem noVal_mget (m : Mat) (i : Nat) : NoValueError (mget m i) := by
  unfold NoValueError mget
  cases m[i]? <;> simp

theorem noVal_pydiv (x y : ℝ) : NoValueError (pydiv x y) := by
  unfold NoValueError pydiv
  by_cases h : y = 0
  · rw [if_pos h]; simp
  · rw [if_neg h]; simp

theorem noVal_ok {α : Type} (x : α) : NoValueError (.ok x : Except PyErr α) := by
  intro s
  simp

theorem noVal_bind {α β : Type} (a : Except PyErr α) (f : α → Except PyErr β)
    (ha : NoValueError a) (hf : ∀ x, NoValueError (f x)) : NoValueError (a >>= f) := by
  cases a with
  | error e =>
    rw [error_bind]
    intro s hs
    exact ha s (by rw [Except.error.inj hs])
  | ok x => rw [ok_bind]; exact hf x

theorem noVal_mapME {α β : Type} (f : α → Except PyErr β) (l : List α)
    (h : ∀ x ∈ l, NoValueError (f x)) : NoValueError (mapME f l) :=
  fun s => mapME_no_valueError f l (fun x hx s2 => h x hx s2) s

/-! ## Evaluation lemmas for the elementwise operations -/

theorem binop_eval (op : ℝ → ℝ → ℝ) (u v : Vec) (h : u.length ≤ v.length) :
    mapME (fun i => do
      let x ← vget u i
      let y ← vget v i
      pure (op x y)) (List.range u.length) = .ok (List.zipWith op u v) := by
  have hbody : ∀ i ∈ List.range u.length,
      (do
        let x ← vget u i
        let y ← vget v i
        pure (op x y) : Except PyErr ℝ) = .ok (op (u.getD i 0) (v.getD i 0)) := by
    intro i hi
    rw [List.mem_range] at hi
    rw [vget_ok u i hi, ok_bind, vget_ok v i (lt_of_lt_of_le hi h), ok_bind, pure_eq_ok]
  rw [mapME_ok _ _ _ hbody, range_map_zipWith op u v h]

theorem add_eval (u v : Vec) (h : u.length ≤ v.length) :
    add u v = .ok (List.zipWith (fun a b => a + b) u v) :=
  binop_eval (fun a b => a + b) u v h

theorem sub_eval (u v : Vec) (h : u.length ≤ v.length) :
    sub u v = .ok (List.zipWith (fun a b => a - b) u v) :=
  binop_eval (fun a b => a - b) u v h

theorem elmult_eval (u v : Vec) (h : u.length ≤ v.length) :
    elmult u v = .ok (List.zipWith (fun a b => a * b) u v) :=
  binop_eval (fun a b => a * b) u v h

theorem dot_eval (u v : Vec) (h : u.length ≤ v.length) :
    dot u v = .ok (List.zipWith (fun a b => a * b) u v).sum := by
  unfold dot
  rw [binop_eval (fun a b => a * b) u v h, ok_bind, pure_eq_ok]

theorem eldiv_eval (u v : Vec) (h : u.length ≤ v.length)
    (hz : ∀ i, i < u.length → v.getD i 0 ≠ 0) :
    eldiv u v = .ok (List.zipWith (fun a b => a / b) u v) := by
  unfold eldiv
  have hbody : ∀ i ∈ List.range u.length,
      (do
        let x ← vget u i
        let y ← vget v i
        pydiv x y : Except PyErr ℝ) = .ok (u.getD i 0 / v.getD i 0) := by
    intro i hi
    rw [List.mem_range] at hi
    rw [vget_ok u i hi, ok_bind, vget_ok v i (lt_of_lt_of_le hi h), ok_bind,
      pydiv_ok _ _ (hz i hi)]
  rw [mapME_ok _ _ _ hbody, range_map_zipWith (fun a b => a / b) u v h]

theorem eldiv_zero_err (u v : Vec) (h : u.length ≤ v.length) (i : Nat) (hi : i < u.length)
    (hz : v.getD i 0 = 0) : eldiv u v = .error .zeroDivisionError := by
  unfold eldiv
  apply mapME_error_of
  · intro j hj
    rw [List.mem_range] at hj
    rw [vget_ok u j hj, ok_bind, vget_ok v j (lt_of_lt_of_le hj h), ok_bind]
    exact pydiv_cases _ _
  · refine ⟨i, List.mem_range.mpr hi, ?_⟩
    rw [vget_ok u i hi, ok_bind, vget_ok v i (lt_of_lt_of_le hi h), ok_bind, hz, pydiv_zero]

theorem div_zero_err (u : Vec) (hu : u ≠ []) : div u 0 = .error .zeroDivisionError := by
  unfold div
  apply mapME_error_of
  · intro j hj
    rw [List.mem_range] at hj
    rw [vget_ok u j hj, ok_bind]
    exact pydiv_cases _ _
  · obtain ⟨a, t, rfl⟩ := List.exists_cons_of_ne_nil hu
    refine ⟨0, List.mem_range.mpr (by simp), ?_⟩
    rw [vget_ok _ 0 (by simp), ok_bind, pydiv_zero]

theorem normalize_zero_err (v : Vec) (hv : v ≠ []) (hm : magnitude v = 0) :
    normalize v = .error .zeroDivisionError := by
  simp only [normalize]
  apply mapME_error_of
  · intro j hj
    rw [List.mem_range] at hj
    rw [vget_ok v j hj, ok_bind]
    exact pydiv_cases _ _
  · obtain ⟨a, t, rfl⟩ := List.exists_cons_of_ne_nil hv
    refine ⟨0, List.mem_range.mpr (by simp), ?_⟩
    rw [vget_ok _ 0 (by simp), ok_bind, hm, pydiv_zero]

theorem noVal_normalize (v : Vec) : NoValueError (normalize v) := by
  simp only [normalize]
  apply noVal_mapME
  intro i _
  exact noVal_bind _ _ (noVal_vget v i) (fun x => noVal_pydiv x (magnitude v))

theorem noVal_div (u : Vec) (c : ℝ) : NoValueError (div u c) := by
  unfold div
  apply noVal_mapME
  intro i _
  exact noVal_bind _ _ (noVal_vget u i) (fun x => noVal_pydiv x c)

theorem noVal_eldiv (u v : Vec) : NoValueError (eldiv u v) := by
  unfold eldiv
  apply noVal_mapME
  intro i _
  exact noVal_bind _ _ (noVal_vget u i)
    (fun x => noVal_bind _ _ (noVal_vget v i) (fun y => noVal_pydiv x y))

/-! ## The explicit dimension-mismatch validation is unique to `vector_matrix_mult`

The one `raise` statement in the module is the dimension check of
`vector_matrix_mult`.  Below, every other `Except`-returning operation of the
module is shown never to produce that error: most produce no `ValueError` at
all; `quaternion_to_rotation_matrix` can only produce the interpreter's
implicit unpacking `ValueError` (message `"unpack"`, not the explicit raise);
and `matrix_mult` produces an error only by propagating one of its per-row
calls of `vector_matrix_mult`.  (The remaining operations — `magnitude`,
`mult`, `matrix_constant_mult`, `transpose` — return plain values, not
`Except`, so they cannot raise at all.) -/

/-- The single error the module explicitly raises. -/
def dimensionMismatchError : PyErr := .valueError "vector_matrix_mult mismatched rows"

theorem noDim_of_noVal {α : Type} (r : Except PyErr α) (h : NoValueError r) :
    r ≠ .error dimensionMismatchError := h _

theorem noVal_vget2 (m : Mat) (i j : Nat) : NoValueError (vget2 m i j) := by
  unfold vget2
  exact noVal_bind _ _ (noVal_mget m i) (fun row => noVal_vget row j)

theorem noVal_add (u w : Vec) : NoValueError (add u w) := by
  unfold add
  apply noVal_mapME
  intro i _
  exact noVal_bind _ _ (noVal_vget u i)
    (fun x => noVal_bind _ _ (noVal_vget w i) (fun y => noVal_ok _))

theorem noVal_sub (u w : Vec) : NoValueError (sub u w) := by
  unfold sub
  apply noVal_mapME
  intro i _
  exact noVal_bind _ _ (noVal_vget u i)
    (fun x => noVal_bind _ _ (noVal_vget w i) (fun y => noVal_ok _))

theorem noVal_elmult (u w : Vec) : NoValueError (elmult u w) := by
  unfold elmult
  apply noVal_mapME
  intro i _
  exact noVal_bind _ _ (noVal_vget u i)
    (fun x => noVal_bind _ _ (noVal_vget w i) (fun y => noVal_ok _))

theorem noVal_dot (u w : Vec) : NoValueError (dot u w) := by
  unfold dot
  apply noVal_bind
  · apply noVal_mapME
    intro i _
    exact noVal_bind _ _ (noVal_vget u i)
      (fun x => noVal_bind _ _ (noVal_vget w i) (fun y => noVal_ok _))
  · intro terms
    exact noVal_ok _

theorem noVal_cross (u w : Vec) : NoValueError (cross u w) := by
  unfold cross
  apply noVal_bind _ _ (noVal_vget u 0); intro u0
  apply noVal_bind _ _ (noVal_vget u 1); intro u1
  apply noVal_bind _ _ (noVal_vget u 2); intro u2
  apply noVal_bind _ _ (noVal_vget w 0); intro v0
  apply noVal_bind _ _ (noVal_vget w 1); intro v1
  apply noVal_bind _ _ (noVal_vget w 2); intro v2
  exact noVal_ok _

theorem noVal_matrix_vector_mult (m : Mat) (u : Vec) :
    NoValueError (matrix_vector_mult m u) := by
  unfold matrix_vector_mult
  apply noVal_mapME
  intro row _
  exact noVal_dot row u

theorem noVal_euler_to_rotation_matrix (e : Vec) :
    NoValueError (euler_to_rotation_matrix e) := by
  unfold euler_to_rotation_matrix
  apply noVal_bind _ _ (noVal_vget e 0); intro a0
  apply noVal_bind _ _ (noVal_vget e 1); intro a1
  apply noVal_bind _ _ (noVal_vget e 2); intro a2
  exact noVal_ok _

theorem noVal_axis_angle_to_quaternion (axis : Vec) (angle : ℝ) :
    NoValueError (axis_angle_to_quaternion axis angle) := by
  unfold axis_angle_to_quaternion
  apply noVal_bind _ _ (noVal_vget axis 0); intro a0
  apply noVal_bind _ _ (noVal_vget axis 1); intro a1
  apply noVal_bind _ _ (noVal_vget axis 2); intro a2
  exact noVal_ok _

theorem noVal_rotation_matrix_to_euler (m : Mat) :
    NoValueError (rotation_matrix_to_euler m) := by
  unfold rotation_matrix_to_euler
  apply noVal_bind _ _ (noVal_vget2 m 0 0)
  intro m00
  by_cases h1 : |m00| > MATRIX_TO_EULER_TOLERANCE
  · rw [if_pos h1]
    apply noVal_bind _ _ (noVal_vget2 m 1 0); intro m10
    apply noVal_bind _ _ (noVal_vget2 m 2 1); intro m21
    apply noVal_bind _ _ (noVal_vget2 m 2 2); intro m22
    apply noVal_bind _ _ (noVal_vget2 m 2 0); intro m20
    apply noVal_bind _ _ (noVal_pydiv m00 _); intro q
    exact noVal_ok _
  · rw [if_neg h1]
    apply noVal_bind _ _ (noVal_vget2 m 0 1)
    intro m01
    by_cases h2 : |m01| > MATRIX_TO_EULER_TOLERANCE
    · rw [if_pos h2]
      apply noVal_bind _ _ (noVal_vget2 m 1 0); intro m10
      apply noVal_bind _ _ (noVal_vget2 m 2 1); intro m21
      apply noVal_bind _ _ (noVal_vget2 m 2 2); intro m22
      apply noVal_bind _ _ (noVal_vget2 m 2 0); intro m20
      apply noVal_bind _ _ (noVal_pydiv m10 _); intro q
      exact noVal_ok _
    · rw [if_neg h2]
      apply noVal_bind _ _ (noVal_vget2 m 2 0); intro m20
      apply noVal_bind _ _ (noVal_vget2 m 1 2); intro m12
      apply noVal_bind _ _ (noVal_vget2 m 0 2); intro m02
      exact noVal_ok _

theorem noVal_reshape (a : Vec ⊕ Mat) (sh : Shape) : NoValueError (reshape a sh) := by
  cases sh with
  | pair rows cols =>
    cases a with
    | inl flat =>
      simp only [reshape]
      apply noVal_bind
      · apply noVal_mapME
        intro x _
        apply noVal_mapME
        intro y _
        exact noVal_vget _ _
      · intro b
        exact noVal_ok _
    | inr mat =>
      intro s hs
      simp [reshape] at hs
  | single n =>
    cases a with
    | inl flat =>
      intro s hs
      simp [reshape] at hs
    | inr mat =>
      simp only [reshape]
      by_cases h : 0 ≤ n ∧ n < ((mat.flatten.length : Int))
      · rw [if_pos h]
        intro s
        simp
      · rw [if_neg h]
        intro s
        simp

/-- Any `ValueError` of `quaternion_to_rotation_matrix` is the interpreter's
implicit unpacking error, never the module's explicit raise. -/
theorem qtrm_valueError_unpack (q : Vec) (s : String)
    (h : quaternion_to_rotation_matrix q = .error (.valueError s)) : s = "unpack" := by
  simp only [quaternion_to_rotation_matrix] at h
  cases hd : div q (magnitude q) with
  | error e =>
    rw [hd, error_bind] at h
    have h2 := noVal_div q (magnitude q) s
    rw [hd] at h2
    have he : e = PyErr.valueError s := Except.error.inj h
    exact absurd (congrArg Except.error he) h2
  | ok l =>
    rw [hd, ok_bind] at h
    rcases l with _ | ⟨a1, _ | ⟨a2, _ | ⟨a3, _ | ⟨a4, _ | ⟨a5, rest⟩⟩⟩⟩⟩
    · exact (PyErr.valueError.inj (Except.error.inj h)).symm
    · exact (PyErr.valueError.inj (Except.error.inj h)).symm
    · exact (PyErr.valueError.inj (Except.error.inj h)).symm
    · exact (PyErr.valueError.inj (Except.error.inj h)).symm
    · exact absurd h (by simp)
    · exact (PyErr.valueError.inj (Except.error.inj h)).symm

theorem noDim_quaternion_to_rotation_matrix (q : Vec) :
    quaternion_to_rotation_matrix q ≠ .error dimensionMismatchError := by
  intro h
  have hs := qtrm_valueError_unpack q "vector_matrix_mult mismatched rows" h
  exact absurd hs (by decide)

theorem noDim_axis_angle_to_rotation_matrix (axis : Vec) (angle : ℝ) :
    axis_angle_to_rotation_matrix axis angle ≠ .error dimensionMismatchError := by
  unfold axis_angle_to_rotation_matrix
  cases ha : axis_angle_to_quaternion axis angle with
  | error e =>
    rw [error_bind]
    intro h
    have h2 := noVal_axis_angle_to_quaternion axis angle "vector_matrix_mult mismatched rows"
    rw [ha] at h2
    have he : e = dimensionMismatchError := Except.error.inj h
    exact h2 (by rw [he]; rfl)
  | ok q =>
    rw [ok_bind]
    exact noDim_quaternion_to_rotation_matrix q

/-- `matrix_mult` raises only what one of its per-row `vector_matrix_mult`
calls raises. -/
theorem matrix_mult_error_mem (a b : Mat) (e : PyErr) (h : matrix_mult a b = .error e) :
    ∃ row ∈ a, vector_matrix_mult row b = .error e :=
  mapME_error_mem _ a e h

/-- "The one explicitly validated case in the whole library": no operation
other than `vector_matrix_mult` ever produces the explicitly raised
dimension-mismatch `ValueError`.  `matrix_mult` only propagates it from its
per-row calls of `vector_matrix_mult`, and the sole `ValueError` of
`quaternion_to_rotation_matrix` is the interpreter's implicit unpacking
error.  (`magnitude`, `mult`, `matrix_constant_mult` and `transpose` return
plain values, not `Except`, and cannot raise.) -/
def OnlyVMMRaisesDimensionError : Prop :=
  (∀ u w : Vec, add u w ≠ .error dimensionMismatchError
    ∧ sub u w ≠ .error dimensionMismatchError
    ∧ dot u w ≠ .error dimensionMismatchError
    ∧ eldiv u w ≠ .error dimensionMismatchError
    ∧ elmult u w ≠ .error dimensionMismatchError
    ∧ cross u w ≠ .error dimensionMismatchError)
  ∧ (∀ (u : Vec) (c : ℝ), normalize u ≠ .error dimensionMismatchError
    ∧ div u c ≠ .error dimensionMismatchError)
  ∧ (∀ q : Vec, quaternion_to_rotation_matrix q ≠ .error dimensionMismatchError
    ∧ ∀ s, quaternion_to_rotation_matrix q = .error (.valueError s) → s = "unpack")
  ∧ (∀ (m : Mat) (u : Vec), matrix_vector_mult m u ≠ .error dimensionMismatchError)
  ∧ (∀ e : Vec, euler_to_rotation_matrix e ≠ .error dimensionMismatchError)
  ∧ (∀ m : Mat, rotation_matrix_to_euler m ≠ .error dimensionMismatchError)
  ∧ (∀ (axis : Vec) (angle : ℝ),
      axis_angle_to_quaternion axis angle ≠ .error dimensionMismatchError
      ∧ axis_angle_to_rotation_matrix axis angle ≠ .error dimensionMismatchError)
  ∧ (∀ (a : Vec ⊕ Mat) (sh : Shape), reshape a sh ≠ .error dimensionMismatchError)
  ∧ (∀ (a b : Mat) (e : PyErr), matrix_mult a b = .error e →
      ∃ row ∈ a, vector_matrix_mult row b = .error e)

theorem onlyVMM_dim_validation : OnlyVMMRaisesDimensionError := by
  refine ⟨?_, ?_, ?_, ?_, ?_, ?_, ?_, ?_, ?_⟩
  · intro u w
    exact ⟨noDim_of_noVal _ (noVal_add u w), noDim_of_noVal _ (noVal_sub u w),
      noDim_of_noVal _ (noVal_dot u w), noDim_of_noVal _ (noVal_eldiv u w),
      noDim_of_noVal _ (noVal_elmult u w), noDim_of_noVal _ (noVal_cross u w)⟩
  · intro u c
    exact ⟨noDim_of_noVal _ (noVal_normalize u), noDim_of_noVal _ (noVal_div u c)⟩
  · intro q
    exact ⟨noDim_quaternion_to_rotation_matrix q, qtrm_valueError_unpack q⟩
  · intro m u
    exact noDim_of_noVal _ (noVal_matrix_vector_mult m u)
  · intro e
    exact noDim_of_noVal _ (noVal_euler_to_rotation_matrix e)
  · intro m
    exact noDim_of_noVal _ (noVal_rotation_matrix_to_euler m)
  · intro axis angle
    exact ⟨noDim_of_noVal _ (noVal_axis_angle_to_quaternion axis angle),
      noDim_axis_angle_to_rotation_matrix axis angle⟩
  · intro a sh
    exact noDim_of_noVal _ (noVal_reshape a sh)
  · intro a b e h
    exact matrix_mult_error_mem a b e h

/-! ## Claim C3 (corrected) -/

/-- **C3, amended.** No function in the library raises an explicit error
except `vector_matrix_mult` on row-count mismatch
(`OnlyVMMRaisesDimensionError`: no other operation ever produces the
explicitly raised dimension-mismatch `ValueError`; `matrix_mult` only
propagates it from its per-row calls of `vector_matrix_mult`, and the only
`ValueError` of `quaternion_to_rotation_matrix` is the interpreter's
implicit unpacking error).  But the zero-divisor cases do **not** silently
return NaN/Infinity components: CPython float division by zero raises
`ZeroDivisionError`, so `normalize` on a nonempty vector of zero magnitude,
`div(u, 0)` for nonempty `u`, and `eldiv(u, v)` with some `v[i] = 0`
(`i < len(u) ≤ len(v)`) raise instead of returning a result. -/
theorem C3_zero_division_raises :
    (∀ v : Vec, v ≠ [] → magnitude v = 0 → normalize v = .error .zeroDivisionError)
    ∧ (∀ u : Vec, u ≠ [] → div u 0 = .error .zeroDivisionError)
    ∧ (∀ u v : Vec, u.length ≤ v.length →
        ∀ i, i < u.length → v.getD i 0 = 0 → eldiv u v = .error .zeroDivisionError)
    ∧ (∀ (v : Vec) (s : String), normalize v ≠ .error (.valueError s))
    ∧ (∀ (u : Vec) (c : ℝ) (s : String), div u c ≠ .error (.valueError s))
    ∧ (∀ (u v : Vec) (s : String), eldiv u v ≠ .error (.valueError s))
    ∧ OnlyVMMRaisesDimensionError :=
  ⟨normalize_zero_err, div_zero_err,
    fun u v h i hi hz => eldiv_zero_err u v h i hi hz,
    fun v => noVal_normalize v, fun u c => noVal_div u c, fun u v => noVal_eldiv u v,
    onlyVMM_dim_validation⟩

/-- **C3 counterexample.** The claim says these calls "do not raise but
instead return results"; in fact each raises `ZeroDivisionError` and returns
nothing. -/
theorem C3_counterexample :
    normalize [(0 : ℝ)] = .error .zeroDivisionError
    ∧ div [(1 : ℝ)] 0 = .error .zeroDivisionError
    ∧ eldiv [(1 : ℝ)] [(0 : ℝ)] = .error .zeroDivisionError := by
  refine ⟨normalize_zero_err _ (by simp) ?_, div_zero_err _ (by simp),
    eldiv_zero_err [(1 : ℝ)] [(0 : ℝ)] (by simp) 0 (by simp) (by simp)⟩
  simp [magnitude, List.range_succ]

/-- Witness for C3 at concrete inputs. -/
theorem C3_witness :
    (([(0 : ℝ)] : Vec) ≠ [] ∧ magnitude [(0 : ℝ)] = 0
      ∧ normalize [(0 : ℝ)] = .error .zeroDivisionError)
    ∧ (([(1 : ℝ)] : Vec) ≠ [] ∧ div [(1 : ℝ)] 0 = .error .zeroDivisionError)
    ∧ eldiv [(1 : ℝ)] [(0 : ℝ)] = .error .zeroDivisionError := by
  have hm : magnitude [(0 : ℝ)] = 0 := by simp [magnitude, List.range_succ]
  exact ⟨⟨by simp, hm, C3_zero_division_raises.1 _ (by simp) hm⟩,
    ⟨by simp, C3_zero_division_raises.2.1 _ (by simp)⟩,
    C3_zero_division_raises.2.2.1 [(1 : ℝ)] [(0 : ℝ)] (by simp) 0 (by simp) (by simp)⟩

/-! ## Claim C10 (corrected) -/

/-- **C10, amended.** For the paired elementwise operations the iteration
length is taken solely from the first argument `u`: whenever
`len(v) ≥ len(u)`, `add`/`sub`/`elmult`/`dot` succeed, the elementwise
results have length `len(u)`, `dot` sums only the first `len(u)` products,
and extra trailing elements of `v` are silently ignored.  `eldiv` succeeds
under the additional proviso that no `v[i]` with `i < len(u)` is zero
(otherwise it raises `ZeroDivisionError`). -/
theorem C10_iteration_length (u v : Vec) (h : u.length ≤ v.length) :
    add u v = .ok (List.zipWith (fun a b => a + b) u v)
    ∧ sub u v = .ok (List.zipWith (fun a b => a - b) u v)
    ∧ elmult u v = .ok (List.zipWith (fun a b => a * b) u v)
    ∧ dot u v = .ok (List.zipWith (fun a b => a * b) u v).sum
    ∧ ((∀ i, i < u.length → v.getD i 0 ≠ 0) →
        eldiv u v = .ok (List.zipWith (fun a b => a / b) u v))
    ∧ (List.zipWith (fun a b => a + b) u v).length = u.length
    ∧ (∀ w : Vec, add u (v ++ w) = add u v ∧ sub u (v ++ w) = sub u v
        ∧ elmult u (v ++ w) = elmult u v ∧ dot u (v ++ w) = dot u v
        ∧ eldiv u (v ++ w) = eldiv u v) := by
  refine ⟨add_eval u v h, sub_eval u v h, elmult_eval u v h, dot_eval u v h,
    fun hz => eldiv_eval u v h hz, ?_, ?_⟩
  · rw [List.length_zipWith]; exact min_eq_left h
  · intro w
    have hv : ∀ i ∈ List.range u.length, vget (v ++ w) i = vget v i := by
      intro i hi
      rw [List.mem_range] at hi
      exact vget_append v w i (lt_of_lt_of_le hi h)
    refine ⟨?_, ?_, ?_, ?_, ?_⟩
    · unfold add; exact mapME_congr _ _ _ (fun i hi => by simp only [hv i hi])
    · unfold sub; exact mapME_congr _ _ _ (fun i hi => by simp only [hv i hi])
    · unfold elmult; exact mapME_congr _ _ _ (fun i hi => by simp only [hv i hi])
    · unfold dot
      have hc : mapME (fun i => do
            let x ← vget u i
            let y ← vget (v ++ w) i
            pure (x * y)) (List.range u.length) =
          mapME (fun i => do
            let x ← vget u i
            let y ← vget v i
            pure (x * y)) (List.range u.length) :=
        mapME_congr _ _ _ (fun i hi => by simp only [hv i hi])
      rw [hc]
    · unfold eldiv; exact mapME_congr _ _ _ (fun i hi => by simp only [hv i hi])

/-- **C10 counterexample.** As stated the claim is false for `eldiv`: with
`len(v) ≥ len(u)` but a zero component in `v`, the call raises
`ZeroDivisionError` rather than succeeding. -/
theorem C10_counterexample :
    ([(1 : ℝ)] : Vec).length ≤ ([(0 : ℝ)] : Vec).length
    ∧ eldiv [(1 : ℝ)] [(0 : ℝ)] = .error .zeroDivisionError :=
  ⟨by simp, eldiv_zero_err [(1 : ℝ)] [(0 : ℝ)] (by simp) 0 (by simp) (by simp)⟩

/-- Witness for C10 at `u = [4, 10]`, `v = [2, 5, 9]`. -/
theorem C10_witness :
    ([(4 : ℝ), 10] : Vec).length ≤ ([(2 : ℝ), 5, 9] : Vec).length
    ∧ add [(4 : ℝ), 10] [(2 : ℝ), 5, 9] = .ok [6, 15]
    ∧ sub [(4 : ℝ), 10] [(2 : ℝ), 5, 9] = .ok [2, 5]
    ∧ elmult [(4 : ℝ), 10] [(2 : ℝ), 5, 9] = .ok [8, 50]
    ∧ dot [(4 : ℝ), 10] [(2 : ℝ), 5, 9] = .ok 58
    ∧ eldiv [(4 : ℝ), 10] [(2 : ℝ), 5, 9] = .ok [2, 2] := by
  have h := C10_iteration_length [(4 : ℝ), 10] [(2 : ℝ), 5, 9] (by simp)
  refine ⟨by simp, ?_, ?_, ?_, ?_, ?_⟩
  · rw [h.1]; norm_num
  · rw [h.2.1]; norm_num
  · rw [h.2.2.1]; norm_num
  · rw [h.2.2.2.1]; norm_num
  · rw [h.2.2.2.2.1 (by intro i hi; simp at hi; interval_cases i <;> norm_num)]
    norm_num

/-! ## Claim C1 (corrected) -/

/-- **C1, amended.** `vector_matrix_mult(v, m)` raises the dimension-mismatch
`ValueError` if and only if `len(v) ≠ len(m)` (the number of rows), and it is
the only operation in the library that performs this explicit validation
(`OnlyVMMRaisesDimensionError`: no other operation ever produces the
dimension-mismatch `ValueError`; `matrix_mult` only propagates it from its
per-row calls of `vector_matrix_mult`); and when the lengths agree on a
**nonempty** rectangular `m` it returns the vector whose `c`-th component is
`Σ_r v[r]·m[r][c]`.  (For `v = []`, `m = []` the lengths agree but the code
fails with an `IndexError` reading `m[0]`, so the nonemptiness proviso is
necessary.) -/
theorem C1_vector_matrix_mult (v : Vec) (m : Mat) :
    ((∃ s, vector_matrix_mult v m = .error (.valueError s)) ↔ v.length ≠ m.length)
    ∧ (v.length = m.length → m ≠ [] →
        (∀ row ∈ m, row.length = (m.getD 0 []).length) →
        vector_matrix_mult v m =
          .ok ((List.range (m.getD 0 []).length).map fun c =>
            ((List.range m.length).map fun r =>
              v.getD r 0 * (m.getD r []).getD c 0).sum))
    ∧ OnlyVMMRaisesDimensionError := by
  refine ⟨?_, ?_, onlyVMM_dim_validation⟩
  · constructor
    · rintro ⟨s, hs⟩
      by_contra heq2
      have hnv : NoValueError (vector_matrix_mult v m) := by
        simp only [vector_matrix_mult]
        rw [if_neg (not_ne_iff.mpr heq2)]
        apply noVal_bind _ _ (noVal_mget m 0)
        intro row0
        apply noVal_mapME
        intro c _
        apply noVal_bind
        · apply noVal_mapME
          intro r _
          apply noVal_bind _ _ (noVal_vget v r)
          intro vr
          apply noVal_bind _ _ (noVal_mget m r)
          intro rowr
          apply noVal_bind _ _ (noVal_vget rowr c)
          intro mrc
          exact noVal_ok _
        · intro terms
          exact noVal_ok _
      exact hnv s hs
    · intro hne
      simp only [vector_matrix_mult]
      rw [if_pos hne]
      exact ⟨_, rfl⟩
  · intro heq hne hrect
    have hmlen : 0 < m.length := List.length_pos.mpr hne
    simp only [vector_matrix_mult]
    rw [if_neg (not_ne_iff.mpr heq), mget_ok m 0 hmlen, ok_bind]
    have hinner : ∀ c, c < (m.getD 0 []).length →
        mapME (fun r => do
          let vr ← vget v r
          let rowr ← mget m r
          let mrc ← vget rowr c
          pure (vr * mrc)) (List.range m.length) =
        .ok ((List.range m.length).map fun r =>
          v.getD r 0 * (m.getD r []).getD c 0) := by
      intro c hc
      apply mapME_ok
      intro r hr
      rw [List.mem_range] at hr
      have hrv : r < v.length := heq ▸ hr
      have hrowmem : m.getD r [] ∈ m := by
        rw [List.getD_eq_getElem m [] hr]
        exact List.getElem_mem hr
      have hclen : c < (m.getD r []).length := by
        rw [hrect (m.getD r []) hrowmem]
        exact hc
      rw [vget_ok v r hrv, ok_bind, mget_ok m r hr, ok_bind, vget_ok _ c hclen, ok_bind,
        pure_eq_ok]
    apply mapME_ok
    intro c hc
    rw [List.mem_range] at hc
    rw [hinner c hc, ok_bind, pure_eq_ok]

/-- **C1 counterexample.** At `v = []`, `m = []` the vector length equals the
row count, yet the call returns no vector: it fails with an `IndexError`
(from `len(m[0])`), so the success half of the claim is false there. -/
theorem C1_counterexample :
    ([] : Vec).length = ([] : Mat).length
    ∧ vector_matrix_mult ([] : Vec) ([] : Mat) = .error .indexError :=
  ⟨rfl, rfl⟩

/-- Witness for C1: the spec's concrete mismatch raises the dimension error,
and a matching `2 × 2` product evaluates to the stated sums. -/
theorem C1_witness :
    (([(1 : ℝ), 2] : Vec).length ≠ ([[(1 : ℝ), 0], [0, 1], [0, 0]] : Mat).length
      ∧ (∃ s, vector_matrix_mult [(1 : ℝ), 2] [[(1 : ℝ), 0], [0, 1], [0, 0]] =
          .error (.valueError s)))
    ∧ vector_matrix_mult [(1 : ℝ), 0] [[(1 : ℝ), 0], [0, 1]] = .ok [1, 0] := by
  constructor
  · have hne : ([(1 : ℝ), 2] : Vec).length ≠ ([[(1 : ℝ), 0], [0, 1], [0, 0]] : Mat).length := by
      simp
    exact ⟨hne, (C1_vector_matrix_mult [(1 : ℝ), 2] [[(1 : ℝ), 0], [0, 1], [0, 0]]).1.mpr hne⟩
  · have h := (C1_vector_matrix_mult [(1 : ℝ), 0] [[(1 : ℝ), 0], [0, 1]]).2.1 (by simp)
      (by simp) (by intro row hrow; simp only [List.mem_cons, List.not_mem_nil, or_false] at hrow; rcases hrow with rfl | rfl <;> simp)
    rw [h]
    norm_num [List.range_succ]

/-! ## `atan2` facts -/

theorem atan2_mul_cos_sin (r θ : ℝ) (hr : 0 < r) (hθ : θ ∈ Set.Ioc (-Real.pi) Real.pi) :
    atan2 (r * Real.sin θ) (r * Real.cos θ) = θ := by
  unfold atan2
  have h1 : (⟨r * Real.cos θ, r * Real.sin θ⟩ : ℂ) =
      (r : ℂ) * ⟨Real.cos θ, Real.sin θ⟩ := by
    apply Complex.ext <;> simp [Complex.mul_re, Complex.mul_im]
  have h2 : (⟨Real.cos θ, Real.sin θ⟩ : ℂ) =
      (Real.cos θ : ℂ) + (Real.sin θ : ℂ) * Complex.I := Complex.mk_eq_add_mul_I _ _
  rw [h1, Complex.arg_real_mul _ hr, h2]
  exact_mod_cast Complex.arg_cos_add_sin_mul_I hθ

theorem sin_atan2_ne_zero (y x : ℝ) (hy : y ≠ 0) : Real.sin (atan2 y x) ≠ 0 := by
  unfold atan2
  have hz : (⟨x, y⟩ : ℂ) ≠ 0 := by
    intro h
    exact hy (by simpa using congrArg Complex.im h)
  rw [Complex.sin_arg]
  exact div_ne_zero (by simpa using hy) (Complex.abs.ne_zero hz)

theorem atan2_one_zero : atan2 1 0 = Real.pi / 2 := by
  unfold atan2
  rw [show (⟨(0 : ℝ), (1 : ℝ)⟩ : ℂ) = Complex.I by apply Complex.ext <;> simp]
  exact Complex.arg_I

theorem atan2_neg_one_zero : atan2 (-1) 0 = -(Real.pi / 2) := by
  unfold atan2
  rw [show (⟨(0 : ℝ), (-1 : ℝ)⟩ : ℂ) = -Complex.I by apply Complex.ext <;> simp]
  exact Complex.arg_neg_I

theorem atan2_zero_one : atan2 0 1 = 0 := by
  unfold atan2
  rw [show (⟨(1 : ℝ), (0 : ℝ)⟩ : ℂ) = 1 by apply Complex.ext <;> simp]
  exact Complex.arg_one

theorem atan2_zero_zero : atan2 0 0 = 0 := by
  unfold atan2
  rw [show (⟨(0 : ℝ), (0 : ℝ)⟩ : ℂ) = 0 by apply Complex.ext <;> simp]
  exact Complex.arg_zero

/-! ## Branch evaluations of `rotation_matrix_to_euler` -/

theorem rmte_branch1 (m00 m01 m02 m10 m11 m12 m20 m21 m22 : ℝ)
    (h1 : |m00| > MATRIX_TO_EULER_TOLERANCE)
    (hc : Real.cos (atan2 m10 m00) ≠ 0) :
    rotation_matrix_to_euler [[m00, m01, m02], [m10, m11, m12], [m20, m21, m22]] =
      .ok [atan2 m10 m00, atan2 (-m20) (m00 / Real.cos (atan2 m10 m00)), atan2 m21 m22] := by
  simp only [rotation_matrix_to_euler, vget2, mget, vget, List.getElem?_cons_zero,
    List.getElem?_cons_succ, ok_bind]
  rw [if_pos h1, pydiv_ok _ _ hc]
  simp only [ok_bind, pure_eq_ok]

theorem rmte_branch2 (m00 m01 m02 m10 m11 m12 m20 m21 m22 : ℝ)
    (h1 : ¬ |m00| > MATRIX_TO_EULER_TOLERANCE)
    (h2 : |m01| > MATRIX_TO_EULER_TOLERANCE)
    (hs : Real.sin (atan2 m10 m00) ≠ 0) :
    rotation_matrix_to_euler [[m00, m01, m02], [m10, m11, m12], [m20, m21, m22]] =
      .ok [atan2 m10 m00, atan2 (-m20) (m10 / Real.sin (atan2 m10 m00)), atan2 m21 m22] := by
  simp only [rotation_matrix_to_euler, vget2, mget, vget, List.getElem?_cons_zero,
    List.getElem?_cons_succ, ok_bind]
  rw [if_neg h1, if_pos h2, pydiv_ok _ _ hs]
  simp only [ok_bind, pure_eq_ok]

theorem rmte_branch3 (m00 m01 m02 m10 m11 m12 m20 m21 m22 : ℝ)
    (h1 : ¬ |m00| > MATRIX_TO_EULER_TOLERANCE)
    (h2 : ¬ |m01| > MATRIX_TO_EULER_TOLERANCE) :
    rotation_matrix_to_euler [[m00, m01, m02], [m10, m11, m12], [m20, m21, m22]] =
      .ok [0, atan2 (-m20) 0, atan2 (-m12) (-m02 * m20)] := by
  simp only [rotation_matrix_to_euler, vget2, mget, vget, List.getElem?_cons_zero,
    List.getElem?_cons_succ, ok_bind]
  rw [if_neg h1, if_neg h2]
  rfl

theorem rmte_branch2_zero (m00 m01 m02 m11 m12 m20 m21 m22 : ℝ)
    (h1 : ¬ |m00| > MATRIX_TO_EULER_TOLERANCE)
    (h2 : |m01| > MATRIX_TO_EULER_TOLERANCE)
    (hs : Real.sin (atan2 0 m00) = 0) :
    rotation_matrix_to_euler [[m00, m01, m02], [0, m11, m12], [m20, m21, m22]] =
      .error .zeroDivisionError := by
  simp only [rotation_matrix_to_euler, vget2, mget, vget, List.getElem?_cons_zero,
    List.getElem?_cons_succ, ok_bind]
  rw [if_neg h1, if_pos h2, hs, pydiv_zero]
  simp only [error_bind]

theorem etrm_eval (az el roll : ℝ) :
    euler_to_rotation_matrix [az, el, roll] = .ok
      [[Real.cos az * Real.cos el,
        Real.cos az * Real.sin el * Real.sin roll - Real.sin az * Real.cos roll,
        Real.cos az * Real.sin el * Real.cos roll + Real.sin az * Real.sin roll],
       [Real.sin az * Real.cos el,
        Real.sin az * Real.sin el * Real.sin roll + Real.cos az * Real.cos roll,
        Real.sin az * Real.sin el * Real.cos roll - Real.cos az * Real.sin roll],
       [-Real.sin el, Real.cos el * Real.sin roll, Real.cos el * Real.cos roll]] := rfl

/-! ## Claim C5 (confirmed) -/

/-- **C5.** `axis_angle_to_quaternion(axis, angle)` returns
`[cos(angle/2), axis[0]·sin(angle/2), axis[1]·sin(angle/2),
axis[2]·sin(angle/2)]` with no normalization of the axis; and concretely
`axis_angle_to_quaternion([0,0,1], π/2) = [cos(π/4), 0, 0, sin(π/4)]`. -/
theorem C5_axis_angle_to_quaternion :
    (∀ a0 a1 a2 angle : ℝ,
      axis_angle_to_quaternion [a0, a1, a2] angle =
        .ok [Real.cos (angle / 2), a0 * Real.sin (angle / 2), a1 * Real.sin (angle / 2),
          a2 * Real.sin (angle / 2)])
    ∧ axis_angle_to_quaternion [0, 0, 1] (Real.pi / 2) =
        .ok [Real.cos (Real.pi / 4), 0, 0, Real.sin (Real.pi / 4)] := by
  have hgen : ∀ a0 a1 a2 angle : ℝ,
      axis_angle_to_quaternion [a0, a1, a2] angle =
        .ok [Real.cos (angle / 2), a0 * Real.sin (angle / 2), a1 * Real.sin (angle / 2),
          a2 * Real.sin (angle / 2)] := fun _ _ _ _ => rfl
  refine ⟨hgen, ?_⟩
  rw [hgen 0 0 1 (Real.pi / 2), show Real.pi / 2 / 2 = Real.pi / 4 by ring]
  norm_num

/-! ## Claim C4 (confirmed) -/

/-- **C4.** `axis_angle_to_rotation_matrix` is exactly the composition of
`axis_angle_to_quaternion` followed by `quaternion_to_rotation_matrix`, for
every axis (unit or not) and angle, so the two computation paths always
agree. -/
theorem C4_axis_angle_composition :
    ∀ (axis : Vec) (angle : ℝ),
      axis_angle_to_rotation_matrix axis angle =
        axis_angle_to_quaternion axis angle >>= quaternion_to_rotation_matrix :=
  fun _ _ => rfl

/-! ## Claim C2 (corrected) -/

/-- **C2, amended.** `rotation_matrix_to_euler` follows the specified
three-way branch with tolerance `1e-12`.  In the second branch
(`|m[0][0]| ≤ 1e-12 < |m[0][1]|`) it returns `[atan2(m[1][0], m[0][0]),
atan2(−m[2][0], m[1][0]/sin(azimuth)), atan2(m[2][1], m[2][2])]` **provided
`m[1][0] ≠ 0`** — for `m[1][0] = 0` the division by `sin(azimuth) = 0`
raises `ZeroDivisionError` instead.  The gimbal-lock branch returns
`[0, atan2(−m[2][0], 0), atan2(−m[1][2], −m[0][2]·m[2][0])]` as claimed. -/
theorem C2_rotation_matrix_to_euler_branches
    (m00 m01 m02 m10 m11 m12 m20 m21 m22 : ℝ) :
    (¬ |m00| > MATRIX_TO_EULER_TOLERANCE → |m01| > MATRIX_TO_EULER_TOLERANCE → m10 ≠ 0 →
      rotation_matrix_to_euler [[m00, m01, m02], [m10, m11, m12], [m20, m21, m22]] =
        .ok [atan2 m10 m00, atan2 (-m20) (m10 / Real.sin (atan2 m10 m00)), atan2 m21 m22])
    ∧ (¬ |m00| > MATRIX_TO_EULER_TOLERANCE → ¬ |m01| > MATRIX_TO_EULER_TOLERANCE →
      rotation_matrix_to_euler [[m00, m01, m02], [m10, m11, m12], [m20, m21, m22]] =
        .ok [0, atan2 (-m20) 0, atan2 (-m12) (-m02 * m20)]) := by
  constructor
  · intro h1 h2 hm10
    exact rmte_branch2 m00 m01 m02 m10 m11 m12 m20 m21 m22 h1 h2
      (sin_atan2_ne_zero m10 m00 hm10)
  · intro h1 h2
    exact rmte_branch3 m00 m01 m02 m10 m11 m12 m20 m21 m22 h1 h2

/-- **C2 counterexample.** The matrix `[[0,1,0],[0,0,0],[0,0,1]]` falls in
the second branch (`|m[0][0]| = 0 ≤ 1e-12 < 1 = |m[0][1]|`), but with
`m[1][0] = 0` the code divides by `sin(atan2(0,0)) = 0` and raises
`ZeroDivisionError` — it does not return the claimed Euler angles. -/
theorem C2_counterexample :
    ¬ |(0 : ℝ)| > MATRIX_TO_EULER_TOLERANCE
    ∧ |(1 : ℝ)| > MATRIX_TO_EULER_TOLERANCE
    ∧ rotation_matrix_to_euler [[0, 1, 0], [0, 0, 0], [0, 0, 1]] =
        .error .zeroDivisionError
    ∧ (∀ w : Vec, rotation_matrix_to_euler [[0, 1, 0], [0, 0, 0], [0, 0, 1]] ≠ .ok w) := by
  have h1 : ¬ |(0 : ℝ)| > MATRIX_TO_EULER_TOLERANCE := by
    norm_num [MATRIX_TO_EULER_TOLERANCE]
  have h2 : |(1 : ℝ)| > MATRIX_TO_EULER_TOLERANCE := by
    norm_num [MATRIX_TO_EULER_TOLERANCE]
  have herr : rotation_matrix_to_euler [[0, 1, 0], [0, 0, 0], [0, 0, 1]] =
      .error .zeroDivisionError := by
    apply rmte_branch2_zero 0 1 0 0 0 0 0 1 h1 h2
    rw [atan2_zero_zero, Real.sin_zero]
  exact ⟨h1, h2, herr, fun w hw => by rw [herr] at hw; exact absurd hw (by simp)⟩

/-- Witness for C2: one concrete matrix per branch. -/
theorem C2_witness :
    (¬ |(0 : ℝ)| > MATRIX_TO_EULER_TOLERANCE ∧ |(1 : ℝ)| > MATRIX_TO_EULER_TOLERANCE
      ∧ (1 : ℝ) ≠ 0
      ∧ rotation_matrix_to_euler [[0, 1, 0], [1, 0, 0], [0, 0, 1]] =
          .ok [Real.pi / 2, 0, 0])
    ∧ (¬ |(0 : ℝ)| > MATRIX_TO_EULER_TOLERANCE
      ∧ rotation_matrix_to_euler [[0, 0, -1], [0, 1, 0], [1, 0, 0]] =
          .ok [0, -(Real.pi / 2), 0]) := by
  have h1 : ¬ |(0 : ℝ)| > MATRIX_TO_EULER_TOLERANCE := by
    norm_num [MATRIX_TO_EULER_TOLERANCE]
  have h2 : |(1 : ℝ)| > MATRIX_TO_EULER_TOLERANCE := by
    norm_num [MATRIX_TO_EULER_TOLERANCE]
  constructor
  · refine ⟨h1, h2, one_ne_zero, ?_⟩
    have h := (C2_rotation_matrix_to_euler_branches 0 1 0 1 0 0 0 0 1).1 h1 h2 one_ne_zero
    rw [h, atan2_one_zero, Real.sin_pi_div_two]
    norm_num [atan2_zero_one]
  · refine ⟨h1, ?_⟩
    have h := (C2_rotation_matrix_to_euler_branches 0 0 (-1) 0 1 0 1 0 0).2 h1 h1
    rw [h, atan2_neg_one_zero]
    norm_num [atan2_zero_one]

/-! ## Claim C7 (confirmed) -/

/-- One round trip is exact for Euler angles in the principal ranges, away
from gimbal lock. -/
theorem euler_roundtrip (az el roll : ℝ)
    (haz : az ∈ Set.Ioc (-Real.pi) Real.pi) (hel : el ∈ Set.Ioc (-Real.pi) Real.pi)
    (hroll : roll ∈ Set.Ioc (-Real.pi) Real.pi) (hce : 0 < Real.cos el)
    (hnd : |Real.cos az * Real.cos el| > MATRIX_TO_EULER_TOLERANCE) :
    (euler_to_rotation_matrix [az, el, roll] >>= rotation_matrix_to_euler) =
      .ok [az, el, roll] := by
  rw [etrm_eval, ok_bind]
  have hca : Real.cos az ≠ 0 := by
    intro h
    rw [h, zero_mul, abs_zero] at hnd
    exact absurd hnd (by norm_num [MATRIX_TO_EULER_TOLERANCE])
  have he0 : atan2 (Real.sin az * Real.cos el) (Real.cos az * Real.cos el) = az := by
    have h := atan2_mul_cos_sin (Real.cos el) az hce haz
    rw [mul_comm (Real.cos el) (Real.sin az), mul_comm (Real.cos el) (Real.cos az)] at h
    exact h
  have hcos_e0 :
      Real.cos (atan2 (Real.sin az * Real.cos el) (Real.cos az * Real.cos el)) ≠ 0 := by
    rw [he0]; exact hca
  rw [rmte_branch1 _ _ _ _ _ _ _ _ _ hnd hcos_e0, he0]
  have he2 : atan2 (Real.cos el * Real.sin roll) (Real.cos el * Real.cos roll) = roll :=
    atan2_mul_cos_sin (Real.cos el) roll hce hroll
  have hdiv : Real.cos az * Real.cos el / Real.cos az = Real.cos el := by
    rw [mul_comm, mul_div_assoc, div_self hca, mul_one]
  have he1 : atan2 (- -Real.sin el) (Real.cos az * Real.cos el / Real.cos az) = el := by
    rw [neg_neg, hdiv]
    have h := atan2_mul_cos_sin 1 el one_pos hel
    simpa using h
  rw [he2, he1]

/-- **C7.** For every non-degenerate Euler triple — angles in the principal
range `(-π, π]`, `cos(elevation) > 0`, and `|cos(azimuth)·cos(elevation)|`
above the tolerance — the double round trip
`rotation_matrix_to_euler ∘ euler_to_rotation_matrix` applied twice returns
the triple exactly (over the reals the "approximately" of the claim is
exact equality). -/
theorem C7_euler_roundtrip (az el roll : ℝ)
    (haz : az ∈ Set.Ioc (-Real.pi) Real.pi) (hel : el ∈ Set.Ioc (-Real.pi) Real.pi)
    (hroll : roll ∈ Set.Ioc (-Real.pi) Real.pi) (hce : 0 < Real.cos el)
    (hnd : |Real.cos az * Real.cos el| > MATRIX_TO_EULER_TOLERANCE) :
    (euler_to_rotation_matrix [az, el, roll] >>= rotation_matrix_to_euler >>=
      euler_to_rotation_matrix >>= rotation_matrix_to_euler) = .ok [az, el, roll] := by
  have h1 := euler_roundtrip az el roll haz hel hroll hce hnd
  rw [h1, ok_bind]
  exact h1

/-- Witness for C7 at the Euler triple `(0, 0, 0)`. -/
theorem C7_witness :
    (0 : ℝ) ∈ Set.Ioc (-Real.pi) Real.pi ∧ 0 < Real.cos (0 : ℝ)
    ∧ |Real.cos (0 : ℝ) * Real.cos (0 : ℝ)| > MATRIX_TO_EULER_TOLERANCE
    ∧ (euler_to_rotation_matrix [(0 : ℝ), 0, 0] >>= rotation_matrix_to_euler >>=
        euler_to_rotation_matrix >>= rotation_matrix_to_euler) = .ok [0, 0, 0] := by
  have hmem : (0 : ℝ) ∈ Set.Ioc (-Real.pi) Real.pi :=
    Set.mem_Ioc.mpr ⟨by linarith [Real.pi_pos], le_of_lt Real.pi_pos⟩
  have hce : 0 < Real.cos (0 : ℝ) := by rw [Real.cos_zero]; norm_num
  have hnd : |Real.cos (0 : ℝ) * Real.cos (0 : ℝ)| > MATRIX_TO_EULER_TOLERANCE := by
    rw [Real.cos_zero]
    norm_num [MATRIX_TO_EULER_TOLERANCE]
  exact ⟨hmem, hce, hnd, C7_euler_roundtrip 0 0 0 hmem hmem hmem hce hnd⟩

/-! ## Claim C6 (confirmed) -/

/-- **C6.** `reshape` has exactly two modes.  With a `(rows, cols)` pair it
unflattens the flat input row-major (element `(x, y)` is `a[x·cols + y]`,
defined whenever `rows·cols ≤ len(a)`); with a single integer `n` it
flattens the matrix row-major and truncates to `n` elements when
`0 ≤ n < length`, otherwise returns the full flattened list.  The two
concrete cases of the spec evaluate as claimed. -/
theorem C6_reshape :
    (∀ (a : Vec) (rows cols : Nat), rows * cols ≤ a.length →
      reshape (.inl a) (.pair rows cols) =
        .ok (.inr ((List.range rows).map fun x =>
          (List.range cols).map fun y => a.getD (x * cols + y) 0)))
    ∧ (∀ (m : Mat) (n : Int),
      reshape (.inr m) (.single n) =
        .ok (.inl (if 0 ≤ n ∧ n < (m.flatten.length : Int)
          then m.flatten.take n.toNat else m.flatten)))
    ∧ reshape (.inl [1, 2, 3, 4, 5, 6]) (.pair 2 3) = .ok (.inr [[1, 2, 3], [4, 5, 6]])
    ∧ reshape (.inr [[1, 2], [3, 4]]) (.single 3) = .ok (.inl [1, 2, 3]) := by
  refine ⟨?_, ?_, rfl, rfl⟩
  · intro a rows cols h
    have houter : ∀ x ∈ List.range rows,
        mapME (fun y => vget a (x * cols + y)) (List.range cols) =
          .ok ((List.range cols).map fun y => a.getD (x * cols + y) 0) := by
      intro x hx
      rw [List.mem_range] at hx
      apply mapME_ok
      intro y hy
      rw [List.mem_range] at hy
      apply vget_ok
      have h1 : x * cols + y < (x + 1) * cols := by
        rw [Nat.succ_mul]
        exact Nat.add_lt_add_left hy _
      have h2 : (x + 1) * cols ≤ rows * cols := mul_le_mul_right' (Nat.succ_le_of_lt hx) cols
      exact lt_of_lt_of_le h1 (le_trans h2 h)
    simp only [reshape]
    rw [mapME_ok _ _ _ houter, ok_bind, pure_eq_ok]
  · intro m n
    simp only [reshape]
    split_ifs <;> rfl

/-- Witness for C6 at the spec's concrete inputs. -/
theorem C6_witness :
    2 * 3 ≤ ([(1 : ℝ), 2, 3, 4, 5, 6] : Vec).length
    ∧ reshape (.inl [(1 : ℝ), 2, 3, 4, 5, 6]) (.pair 2 3) =
        .ok (.inr [[1, 2, 3], [4, 5, 6]])
    ∧ reshape (.inr [[(1 : ℝ), 2], [3, 4]]) (.single 3) = .ok (.inl [1, 2, 3]) := by
  refine ⟨by simp, ?_, ?_⟩
  · rw [C6_reshape.1 [(1 : ℝ), 2, 3, 4, 5, 6] 2 3 (by simp)]
    rfl
  · rw [C6_reshape.2.1 [[(1 : ℝ), 2], [3, 4]] 3]
    rfl

/-! ## Claim C8 (corrected) -/

theorem foldl_min_const (n : Nat) (rs : Mat) (h : ∀ r ∈ rs, r.length = n) :
    rs.foldl (fun acc row => min acc row.length) n = n := by
  induction rs with
  | nil => rfl
  | cons r rs ih =>
    rw [List.foldl_cons, h r (List.mem_cons_self r rs), min_self]
    exact ih (fun x hx => h x (List.mem_cons_of_mem r hx))

theorem transpose_eq (A : Mat) (n : Nat) (hA : A ≠ []) (h : ∀ row ∈ A, row.length = n) :
    transpose A = (List.range n).map fun j => A.map fun row => row.getD j 0 := by
  obtain ⟨r0, rs, rfl⟩ := List.exists_cons_of_ne_nil hA
  simp only [transpose]
  rw [h r0 (List.mem_cons_self r0 rs),
    foldl_min_const n rs (fun x hx => h x (List.mem_cons_of_mem r0 hx))]

theorem getD_map_range {α : Type} (f : Nat → α) (n j : Nat) (hj : j < n) (d : α) :
    (((List.range n).map f).getD j d) = f j := by
  rw [List.getD_eq_getElem _ _ (by simpa using hj), List.getElem_map, List.getElem_range]

theorem getD_map_getD (l : Mat) (j i : Nat) (hi : i < l.length) :
    (l.map fun row => row.getD j 0).getD i 0 = (l.getD i []).getD j 0 := by
  rw [List.getD_eq_getElem _ _ (by simpa using hi), List.getElem_map,
    List.getD_eq_getElem l [] hi]

/-- **C8, amended.** For a rectangular matrix `A` with positive row length
`n`, `transpose(A)` swaps rows and columns (it is the `n × len(A)` matrix
with entry `(j, i)` equal to `A[i][j]`, for nonempty `A`) and
`transpose(transpose(A)) = A`.  The positivity proviso is necessary: rows of
length `0` are dropped by `zip`, e.g. `transpose(transpose([[],[]])) = []`. -/
theorem C8_transpose (A : Mat) (n : Nat) (hn : 0 < n)
    (hrect : ∀ row ∈ A, row.length = n) :
    (A ≠ [] → (transpose A).length = n
      ∧ (∀ j, j < n → ((transpose A).getD j []).length = A.length
        ∧ ∀ i, i < A.length →
          ((transpose A).getD j []).getD i 0 = (A.getD i []).getD j 0))
    ∧ transpose (transpose A) = A := by
  rcases eq_or_ne A [] with rfl | hA
  · exact ⟨fun h => absurd rfl h, rfl⟩
  have hT := transpose_eq A n hA hrect
  constructor
  · intro _
    constructor
    · rw [hT]; simp
    · intro j hj
      rw [hT, getD_map_range _ n j hj]
      constructor
      · simp
      · intro i hi
        exact getD_map_getD A j i hi
  · have hTrows : ∀ col ∈ transpose A, col.length = A.length := by
      rw [hT]
      intro col hcol
      obtain ⟨j, _, rfl⟩ := List.mem_map.mp hcol
      simp
    have hTne : transpose A ≠ [] := by
      apply List.length_pos.mp
      rw [hT]
      simpa using hn
    rw [transpose_eq (transpose A) A.length hTne hTrows, hT]
    simp only [List.map_map, Function.comp_def]
    have key : ∀ i ∈ List.range A.length,
        ((List.range n).map fun j => (A.map fun row => row.getD j 0).getD i 0) =
          A.getD i [] := by
      intro i hi
      rw [List.mem_range] at hi
      have hrow : ∀ j ∈ List.range n,
          (A.map fun row => row.getD j 0).getD i 0 = (A.getD i []).getD j 0 :=
        fun j _ => getD_map_getD A j i hi
      rw [List.map_congr_left hrow]
      have hlen : (A.getD i []).length = n := by
        apply hrect
        rw [List.getD_eq_getElem A [] hi]
        exact List.getElem_mem hi
      rw [← hlen, range_map_getD 0 (A.getD i [])]
    rw [List.map_congr_left key, range_map_getD [] A]

/-- **C8 counterexample.** `[[],[]]` is rectangular (both rows have length
`0`) but `transpose(transpose([[],[]])) = [] ≠ [[],[]]`. -/
theorem C8_counterexample :
    (∀ row ∈ ([[], []] : Mat), row.length = 0)
    ∧ transpose (transpose ([[], []] : Mat)) = ([] : Mat)
    ∧ transpose (transpose ([[], []] : Mat)) ≠ [[], []] := by
  refine ⟨?_, rfl, ?_⟩
  · intro row hrow
    simp only [List.mem_cons, List.not_mem_nil, or_false, or_self] at hrow
    subst hrow
    rfl
  · rw [show transpose (transpose ([[], []] : Mat)) = ([] : Mat) from rfl]
    simp

/-- Witness for C8 at `A = [[1,2],[3,4]]`, `n = 2`. -/
theorem C8_witness :
    (0 : Nat) < 2 ∧ (∀ row ∈ ([[(1 : ℝ), 2], [3, 4]] : Mat), row.length = 2)
    ∧ transpose (transpose ([[(1 : ℝ), 2], [3, 4]] : Mat)) = [[1, 2], [3, 4]] := by
  have hrect : ∀ row ∈ ([[(1 : ℝ), 2], [3, 4]] : Mat), row.length = 2 := by
    intro row hrow
    simp only [List.mem_cons, List.not_mem_nil, or_false] at hrow
    rcases hrow with rfl | rfl <;> rfl
  exact ⟨by norm_num, hrect,
    (C8_transpose [[(1 : ℝ), 2], [3, 4]] 2 (by norm_num) hrect).2⟩

end

end VectorOps
